import Mathlib

/-
Verification development for the dope incremental markup-rendering engine
(src/src/dope.ts and src/src/dope-effects.ts). The engine's data model and
operations are shallowly embedded as executable Lean definitions; machine-level
JavaScript details (value shapes, loose equality with null, truthiness, operator
precedence in the key-derivation closure, registry iteration order) are carried
over exactly where the claims depend on them.
-/

namespace Dope

/-- The three placement kinds (dope.ts lines 1-5, enum Placement). -/
inductive Placement where
| element
| attribute
| tag
deriving DecidableEq

/-- The string value of each Placement enum member (dope.ts lines 2-4),
used in the conversion-failure message of toAction (line 32). -/
def placementName : Placement → String
| .element => "element"
| .attribute => "attribute"
| .tag => "tag"

/-- Model of a JavaScript runtime value as it is inspected by the action
factories: null, undefined, booleans, numbers (integral doubles modelled as
Int, which matches their decimal text), strings, arrays, plain objects,
symbols, bigints and functions. Objects, symbols and functions carry an
identity tag only; their structure is never inspected by the code under
verification. -/
inductive JSValue where
| vNull
| vUndefined
| vBool (b : Bool)
| vNum (n : Int)
| vStr (s : String)
| vArr (items : List JSValue)
| vObj (oid : Nat)
| vSym (sid : Nat)
| vBigInt (n : Int)
| vFun (fid : Nat)

/-- JS number-to-string coercion for the integral numbers the model carries
(value.toString() in makeTextAction line 167 and makeStringAction line 314). -/
def jsNumToString (n : Int) : String := toString n

mutual
/-- JS string coercion String(value), used when a value is interpolated into
the failure message of toAction (dope.ts line 32). For symbols the real
runtime raises a TypeError from the template literal instead of producing a
string; no claim depends on the text of that message, only on the fact that
conversion fails, so the coercion is totalized here. -/
def jsToString : JSValue → String
| .vNull => "null"
| .vUndefined => "undefined"
| .vBool b => if b then "true" else "false"
| .vNum n => jsNumToString n
| .vStr s => s
| .vArr items => String.intercalate "," (jsToStringList items)
| .vObj _ => "[object Object]"
| .vSym _ => "Symbol()"
| .vBigInt n => toString n
| .vFun _ => "function"

def jsToStringList : List JSValue → List String
| [] => []
| v :: vs => jsToString v :: jsToStringList vs
end

/-- The message of the Error thrown when no factory accepts a value
(dope.ts line 32). -/
def convFailMsg (plc : Placement) (v : JSValue) : String :=
  "Failed to convert argument " ++ jsToString v ++ " to action for " ++ placementName plc ++ "."

/-- An Action produced by conversion at Element placement, described by what
its closure does when invoked: a text action patches or creates a text node
with the captured string (makeTextAction lines 163-182), an array action
patches or creates an ArrayContent from the captured per-item actions
(makeArrayAction lines 282-299), and a function value passed through toAction
verbatim (line 23-24) is opaque. -/
inductive ElemAct where
| textAct (s : String)
| arrayAct (items : List ElemAct)
| verbatim (fid : Nat)

mutual
/-- toAction(Placement.Element, value) (dope.ts lines 19-33) with the Element
registry of line 9, [makeTextAction, makeArrayAction]. The loop of lines 26-31
iterates from the highest index down, so makeArrayAction is tried before
makeTextAction; makeArrayAction (lines 282-299) accepts null and undefined
(coerced to []) and arrays (each item converted eagerly by values.map, so a
failing item propagates its error), and makeTextAction (lines 163-182) accepts
null/undefined (unreachable here), numbers and strings; every other
non-function shape is accepted by neither factory and line 32 throws. -/
def toActionElement : JSValue → Except String ElemAct
| .vFun fid => .ok (.verbatim fid)
| .vNull => .ok (.arrayAct [])
| .vUndefined => .ok (.arrayAct [])
| .vArr items => (convertItems items).map ElemAct.arrayAct
| .vNum n => .ok (.textAct (jsNumToString n))
| .vStr s => .ok (.textAct s)
| .vBool b => .error (convFailMsg .element (.vBool b))
| .vObj oid => .error (convFailMsg .element (.vObj oid))
| .vSym sid => .error (convFailMsg .element (.vSym sid))
| .vBigInt n => .error (convFailMsg .element (.vBigInt n))

/-- values.map(v => toAction(Placement.Element, v)) in makeArrayAction
(dope.ts line 288): left-to-right, first failure propagates. -/
def convertItems : List JSValue → Except String (List ElemAct)
| [] => .ok []
| v :: vs =>
  match toActionElement v with
  | .error e => .error e
  | .ok a =>
    match convertItems vs with
    | .error e => .error e
    | .ok rest => .ok (a :: rest)
end

/-- Bool classifier: does a conversion result carry a text action?
Used to state that a value does (or does not) render as text. -/
def producesText : Except String ElemAct → Bool
| .ok (.textAct _) => true
| _ => false

/-- value instanceof Function (dope.ts line 23). -/
def isCallable : JSValue → Bool
| .vFun _ => true
| _ => false

/-- An action factory as registered with defineAction: for a value it either
throws (error), declines by returning undefined (ok none), or returns an
action (ok some) — dope.ts line 7, type ActionFactory. -/
def FactoryM (α : Type) : Type := JSValue → Except String (Option α)

/-- defineAction(placement, factory) appends to the registry list
(dope.ts lines 14-18, f.push(action)). -/
def defineActionM {α : Type} (fs : List (FactoryM α)) (f : FactoryM α) : List (FactoryM α) :=
  fs ++ [f]

/-- The factory loop of toAction (dope.ts lines 26-31): iterate the registry
from index length-1 down to 0, returning the first non-null result; a factory
that throws aborts the scan. On the list [f0, ..., fn] this tries fn first. -/
def tryFactoriesDown {α : Type} : List (FactoryM α) → JSValue → Except String (Option α)
| [], _ => .ok none
| f :: fs, v =>
  match tryFactoriesDown fs v with
  | .error e => .error e
  | .ok (some a) => .ok (some a)
  | .ok none => f v

/-- Specification-side rendering of the same scan, written the way the spec
describes it: try factories front to back, first acceptance wins. Related to
tryFactoriesDown by reversing the registry (most-recently-registered first). -/
def firstAccept {α : Type} : List (FactoryM α) → JSValue → Except String (Option α)
| [], _ => .ok none
| f :: fs, v =>
  match f v with
  | .error e => .error e
  | .ok (some a) => .ok (some a)
  | .ok none => firstAccept fs v

/-- toAction(placement, value) (dope.ts lines 19-33), generic over the
registry currently stored for the placement kind: a callable value is
returned verbatim (lines 23-24), otherwise the factories are scanned from the
most recently registered down (lines 26-31), and if none accepts, line 32
throws an Error naming the value and the placement. -/
def toActionG {α : Type} (mkVerbatim : Nat → α) (plc : Placement)
    (fs : List (FactoryM α)) (v : JSValue) : Except String α :=
  match v with
  | .vFun fid => .ok (mkVerbatim fid)
  | _ =>
    match tryFactoriesDown fs v with
    | .error e => .error e
    | .ok (some a) => .ok a
    | .ok none => .error (convFailMsg plc v)

/-- An Action produced by conversion at Attribute placement: a string action
returns an eagerly built StringContent (makeStringAction lines 310-320), and
a callable value passes through verbatim. -/
inductive AttrAct where
| stringAct (s : String)
| verbatimA (fid : Nat)

/-- makeStringAction (dope.ts lines 310-320): null/undefined coerce to the
empty string, numbers to their decimal text, strings are taken as they are;
every other shape declines. -/
def makeStringActionF : FactoryM AttrAct := fun v =>
  match v with
  | .vNull => .ok (some (.stringAct ""))
  | .vUndefined => .ok (some (.stringAct ""))
  | .vNum n => .ok (some (.stringAct (jsNumToString n)))
  | .vStr s => .ok (some (.stringAct s))
  | _ => .ok none

/-- makeJoinAction (dope.ts lines 322-324): it unconditionally throws the
string 'join action not implemented'; it never declines and never returns. -/
def makeJoinActionF : FactoryM AttrAct := fun _ => .error "join action not implemented"

/-- The Attribute registry of dope.ts line 10: [makeStringAction, makeJoinAction].
The loop scans from the highest index down, so makeJoinAction runs first. -/
def attributeFactories : List (FactoryM AttrAct) := [makeStringActionF, makeJoinActionF]

/-- toAction(Placement.Attribute, value): the generic conversion applied to
the Attribute registry. -/
def toActionAttribute (v : JSValue) : Except String AttrAct :=
  toActionG AttrAct.verbatimA Placement.attribute attributeFactories v

/-- Terminal Content as tested by the while-condition of renderInPlace
(dope.ts line 125, instanceof ElementContent/AttributeContent/TagContent):
a text node (TextContent, lines 152-162, owning one text node), array content
(ArrayContent, lines 203-281, modelled here only by the item actions it was
built from — the keyed list pass is modelled separately below), an attribute
string (StringContent, lines 301-309) and a property bag (PropertiesContent,
lines 326-335). -/
inductive ContentM where
| textC (nid : Nat) (s : String)
| arrayC (items : List ElemAct)
| stringC (s : String)
| propsC (oid : Nat)

/-- The value flowing through the resolution loop of renderInPlace: either a
raw JS value still to be converted, or terminal Content. -/
inductive RVal where
| raw (v : JSValue)
| cont (c : ContentM)

/-- A Place as built by render (dope.ts lines 140-150): its placement kind,
an identity for the place object, and the prior content the accessor would
return (none models an absent or incompatible prior). The parent-content
field and update callback are caller state that the loop itself never
inspects. -/
structure PlaceM where
  placement : Placement
  pid : Nat
  priorContent : Option ContentM

/-- The process-wide mutable globals _place and _action (dope.ts lines 95,
100), by identity, plus the fresh-identity supply used by the model to
allocate action objects and text nodes. -/
structure RState where
  curPlace : Option Nat
  curAction : Option Nat
  nextId : Nat
deriving DecidableEq

/-- Evaluate the closure of a built-in element action inside the active place
(a() at dope.ts line 131): the closure of makeTextAction (lines 173-181)
reads place().priorContent and patches a prior TextContent in place (keeping
its node) or constructs a fresh text node; the closure of makeArrayAction
(lines 290-298) likewise patches or constructs array content (modelled
shallowly by the captured item actions; the keyed pass is modelled
separately). A verbatim function action is opaque to the model (none). -/
def evalAct (st : RState) (p : PlaceM) : ElemAct → Option (RVal × RState)
| .textAct s =>
  match p.priorContent with
  | some (.textC nid _) => some (.cont (.textC nid s), st)
  | _ => some (.cont (.textC st.nextId s), { st with nextId := st.nextId + 1 })
| .arrayAct items => some (.cont (.arrayC items), st)
| .verbatim _ => none

/-- The resolution loop of renderInPlace (dope.ts lines 125-133). Note line
126: the source converts every not-yet-terminal value with the FIXED kind
Placement.Element — toAction(Placement.Element, action) — never with
place.placement; this model reproduces that by calling toActionElement for
every place. A fresh action object is installed in _action before each
invocation (lines 127-130); if the conversion throws, the loop aborts with
the globals as they stand at the throw. Fuel bounds the (source-unbounded)
chain of deferred renders. -/
def resolveLoop : Nat → RState → PlaceM → RVal → RState × Except String ContentM
| _, st, _, .cont c => (st, .ok c)
| 0, st, _, .raw _ => (st, .error "model fuel exhausted")
| Nat.succ fuel, st, p, .raw v =>
  match toActionElement v with
  | .error e => (st, .error e)
  | .ok a =>
    let st1 : RState := { st with curAction := some st.nextId, nextId := st.nextId + 1 }
    match evalAct st1 p a with
    | none => (st1, .error "model opaque function action")
    | some (rv, st2) => resolveLoop fuel st2 p rv

/-- renderInPlace (dope.ts lines 119-139): save the globals _place/_action,
install the new place, run the resolution loop, hand the terminal content to
place.update, and restore the globals — but only on the normal path; there
is no try/finally, so when the loop throws, the function exits with the
globals still holding the failed call's place (and whatever action was
installed last). -/
def renderInPlaceM (fuel : Nat) (st : RState) (p : PlaceM) (v : RVal) :
    RState × Except String ContentM :=
  let parentPlace := st.curPlace
  let parentAction := st.curAction
  let st1 : RState := { st with curPlace := some p.pid }
  match resolveLoop fuel st1 p v with
  | (st2, .ok c) => ({ st2 with curPlace := parentPlace, curAction := parentAction }, .ok c)
  | (st2, .error e) => (st2, .error e)

/-- The text carried by a successful render that produced a text node;
none for any other outcome. -/
def renderedText : RState × Except String ContentM → Option String
| (_, .ok (.textC _ s)) => some s
| (_, _) => none

/-- An ElementContent item owned by an ArrayContent, for the keyed-list pass:
its object identity (cid), its class tag (kind — standing for the per-variant
instanceof compatibility checks of the built-in actions, e.g. TextContent at
line 175, ArrayContent at line 292, HTMLContent at line 539), and the node
range it owns in the host tree as returned by nodes(). An item's range is
treated as stable under an in-place patch: TextContent.patch rewrites
nodeValue only, and range-owning contents keep their boundary nodes. -/
structure CItem where
  cid : Nat
  kind : Nat
  nodes : List Nat
deriving DecidableEq

/-- The persistent fields of an ArrayContent (dope.ts lines 203-219): its
boundary comment node, its contents in order (this.#contents) and the
key-to-content map of the previous pass (this.#contentsByKey, an object used
as a string-keyed map). -/
structure ArrState where
  marker : Nat
  contents : List CItem
  contentsByKey : List (String × CItem)

/-- One action of the actions array passed to ArrayContent.patch (line 228),
as far as the pass observes it: the explicit key the keyed() wrapper (lines
189-197) stamps on the item's place before the inner action runs (none when
key() is null or undefined), the content class the action patches or builds,
and the identity/nodes it would allocate when constructed fresh. -/
structure PassItem where
  key : Option String
  kind : Nat
  freshCid : Nat
  newNodes : List Nat

/-- The string coercion of key() inside 'key-' + key() (dope.ts line 248):
when the place carries no key, key() is undefined and coerces to
"undefined". -/
def keyString : Option String → String
| some s => s
| none => "undefined"

/-- The getKey closure of ArrayContent.patch (dope.ts lines 246-249):
  let _key; const getKey = () => _key = _key || (key() != null)
      ? 'key-' + key() : 'index-' + index++;
JS operator precedence parses the body as
  _key = ((_key || (key() != null)) ? 'key-' + key() : 'index-' + index++).
cached models _key (the cached string is always nonempty, so its truthiness
is isSome); k models key() (none when key() is null or undefined, so the
loose comparison key() != null is k.isSome). Returns the computed key, the
new _key cache, and the new value of the pass-wide unkeyed counter. -/
def getKey (cached : Option String) (k : Option String) (index : Nat) :
    String × Option String × Nat :=
  if cached.isSome || k.isSome then
    ("key-" ++ keyString k, some ("key-" ++ keyString k), index)
  else
    ("index-" ++ toString index, some ("index-" ++ toString index), index + 1)

/-- Lookup in a JS object used as a string-keyed map (first matching entry;
entries are kept unique by assocUpsert). -/
def assocLookup {β : Type} : List (String × β) → String → Option β
| [], _ => none
| (k, b) :: rest, q => if k = q then some b else assocLookup rest q

/-- Property assignment obj[key] = value on a JS object used as a map:
overwrite the existing entry or append a new one. -/
def assocUpsert {β : Type} : List (String × β) → String → β → List (String × β)
| [], q, b => [(q, b)]
| (k, x) :: rest, q, b => if k = q then (q, b) :: rest else (k, x) :: assocUpsert rest q b

/-- content.move() detaching a node range from the host child list
(ElementContent.move, dope.ts lines 105-109: the nodes are appended to a
fragment, leaving the tree). Nodes not present are ignored. -/
def removeNodes (dom : List Nat) (ns : List Nat) : List Nat :=
  dom.filter (fun x => decide (¬ x ∈ ns))

/-- parent.insertBefore(fragment, next) (dope.ts lines 231-233): splice the
fragment's nodes immediately before the first occurrence of next, or append
when next is null. The nodes being inserted have already been detached. -/
def insertBeforeNext (dom : List Nat) (next : Option Nat) (ns : List Nat) : List Nat :=
  match next with
  | none => dom ++ ns
  | some nx => dom.takeWhile (fun x => decide (x ≠ nx)) ++ ns
      ++ dom.dropWhile (fun x => decide (x ≠ nx))

/-- node.nextSibling in the host child list: the entry immediately after the
first occurrence of the node, none when it is last or absent. -/
def sibAfter : List Nat → Nat → Option Nat
| [], _ => none
| x :: rest, n => if x = n then rest.head? else sibAfter rest n

/-- e[e.length - 1].nextSibling for a content's node range e (dope.ts lines
261-262): the sibling after the range's last node. An empty range makes the
source throw; the model returns none and the theorems assume nonempty
ranges. -/
def nextSiblingOfLast (dom : List Nat) (ns : List Nat) : Option Nat :=
  match ns.getLast? with
  | none => none
  | some l => sibAfter dom l

/-- What one iteration of the reconciliation loop recorded: the resolved
content's identity and node range, the old ordinal position when the content
was matched in place (indicesByContent.get, line 255), and whether its node
range was physically moved/inserted (the else branch of lines 263-265). -/
structure StepLog where
  cid : Nat
  nodes : List Nat
  matched : Option Nat
  moved : Bool
deriving DecidableEq

/-- The running state of one ArrayContent.patch pass (dope.ts lines 228-272):
the host child list, the insertion cursor (next, line 230), the unkeyed
counter (index, line 244), the high-water mark (updatedInPlaceIndex, line
243), the previous pass's key map (read-only during the pass), the remaining
indicesByContent entries (lines 238-241, in insertion order), and the
accumulating contents/contentsByKey of this pass (lines 235-236). -/
structure PassState where
  dom : List Nat
  next : Option Nat
  idx : Nat
  mark : Int
  oldByKey : List (String × CItem)
  indices : List (CItem × Nat)
  newContents : List CItem
  newByKey : List (String × CItem)

/-- indicesByContent.get(content) by object identity (dope.ts line 255). -/
def lookupIdx : List (CItem × Nat) → Nat → Option Nat
| [], _ => none
| (c, i) :: rest, q => if c.cid = q then some i else lookupIdx rest q

/-- indicesByContent.delete(content) (dope.ts line 256). -/
def removeIdx (l : List (CItem × Nat)) (q : Nat) : List (CItem × Nat) :=
  l.filter (fun p => decide (¬ p.1.cid = q))

/-- Whether this iteration physically moves/inserts the content's node range:
the source takes the in-place branch exactly when matchIndex >
updatedInPlaceIndex (line 258), where a freshly constructed content has
matchIndex undefined and undefined > mark is false. -/
def stepDecision (mark : Int) (matchIdx : Option Nat) : Bool :=
  match matchIdx with
  | some m => if mark < (m : Int) then false else true
  | none => true

/-- The new high-water mark after one iteration (line 259): raised to the
matched old ordinal on the in-place branch, otherwise unchanged. -/
def nextMark (mark : Int) (matchIdx : Option Nat) : Int :=
  match matchIdx with
  | some m => if mark < (m : Int) then (m : Int) else mark
  | none => mark

/-- The per-entry content resolution inside render (lines 251-253 and the
built-in action bodies): getKey's first computation happens through the
priorContent accessor (every built-in action reads place().priorContent
exactly once), the prior content found under the derived key is patched in
place when its class matches the action's (the per-variant instanceof
checks), otherwise a fresh content is constructed with this entry's new
identity and node range. Returns the content and whether it is the reused
prior object (in JS a freshly constructed object can never be a key of
indicesByContent, which the Bool captures). -/
def resolveContent (s : PassState) (it : PassItem) : CItem × Bool :=
  let lookupKey := (getKey none it.key s.idx).1
  match assocLookup s.oldByKey lookupKey with
  | some c =>
    if c.kind = it.kind then (c, true)
    else (⟨it.freshCid, it.kind, it.newNodes⟩, false)
  | none => (⟨it.freshCid, it.kind, it.newNodes⟩, false)

/-- One iteration of the reconciliation loop of ArrayContent.patch (dope.ts
lines 245-272): derive the lookup key (getKey, first call, via priorContent),
resolve the content, read and delete its indicesByContent entry, either
treat it as already ordered (no move, raise the mark, advance the cursor
past its range — lines 258-262) or move/insert its range before the cursor
(lines 263-265), then store it in this pass's accumulators under the key of
getKey's second call (lines 267-268). -/
def stepMFull (s : PassState) (it : PassItem) : PassState × StepLog :=
  let idx1 := (getKey none it.key s.idx).2.2
  let cached1 := (getKey none it.key s.idx).2.1
  let c := (resolveContent s it).1
  let matchIdx := if (resolveContent s it).2 then lookupIdx s.indices c.cid else none
  let moved := stepDecision s.mark matchIdx
  let storeKey := (getKey cached1 it.key idx1).1
  ({ dom := if moved then insertBeforeNext (removeNodes s.dom c.nodes) s.next c.nodes
            else s.dom
   , next := if moved then s.next else nextSiblingOfLast s.dom c.nodes
   , idx := idx1
   , mark := nextMark s.mark matchIdx
   , oldByKey := s.oldByKey
   , indices := removeIdx s.indices c.cid
   , newContents := s.newContents ++ [c]
   , newByKey := assocUpsert s.newByKey storeKey c },
   ⟨c.cid, c.nodes, matchIdx, moved⟩)

/-- for (const action of actions) (dope.ts line 245): run the loop over the
whole actions array, collecting each iteration's log entry in order. -/
def runItems : PassState → List PassItem → PassState × List StepLog
| s, [] => (s, [])
| s, it :: its =>
  let r := stepMFull s it
  let rest := runItems r.1 its
  (rest.1, r.2 :: rest.2)

/-- The cleanup loop of lines 274-276: every previous-pass content never
re-matched (still in indicesByContent, in insertion order) has its node
range detached by content.move(). -/
def cleanupDom (dom : List Nat) (l : List (CItem × Nat)) : List Nat :=
  l.foldl (fun d p => removeNodes d p.1.nodes) dom

/-- this.#contents.entries() (dope.ts line 239): each content of the
previous pass paired with its ordinal position, counting from the given
start. -/
def enumContentsFrom : Nat → List CItem → List (CItem × Nat)
| _, [] => []
| i, c :: rest => (c, i) :: enumContentsFrom (i + 1) rest

/-- The initial indicesByContent of lines 238-241: each previous-pass content
mapped to its ordinal position, in order. -/
def enumContents (l : List CItem) : List (CItem × Nat) :=
  enumContentsFrom 0 l

/-- ArrayContent.patch (dope.ts lines 228-280) over the host child list dom
(the children of the marker's parent, in order): initialize the cursor to
marker.nextSibling, run the reconciliation loop over the actions, clean up
unmatched previous contents, and commit the new contents and key map.
Returns the new ArrayContent state, the final child list, and the per-entry
log. -/
def patchM (st : ArrState) (dom : List Nat) (items : List PassItem) :
    ArrState × List Nat × List StepLog :=
  let s0 : PassState :=
    { dom := dom
    , next := sibAfter dom st.marker
    , idx := 0
    , mark := -1
    , oldByKey := st.contentsByKey
    , indices := enumContents st.contents
    , newContents := []
    , newByKey := [] }
  let r := runItems s0 items
  let domF := cleanupDom r.1.dom r.1.indices
  ({ marker := st.marker, contents := r.1.newContents, contentsByKey := r.1.newByKey },
   domF, r.2)

/-- Bool form of the minimal-move conclusion: no logged entry that was
matched in place was also physically moved. -/
def noMatchedMoved (l : List StepLog) : Bool :=
  l.all (fun e => (!e.matched.isSome) || (!e.moved))

/-- An HTMLContent instance (dope-effects.ts lines 461-529): its object
identity, the compiled template it was built from (this.template, compared
by reference at line 540), the identities of the skeleton nodes it owns
(begin marker, cloned skeleton, end marker — lines 472-479), and the values
most recently applied by patch. patch(values) (lines 526-528) re-renders
each slot at its persistent marker and rewrites wired attributes; it never
replaces a skeleton node, so the skeleton identities survive a patch. -/
structure HContentM where
  cid : Nat
  templateId : Nat
  skeleton : List Nat
  slotValues : List Nat
deriving DecidableEq

/-- The prior content seen by the action of makeHTMLAction through
place().priorContent (line 538): absent, an HTMLContent, or some other
content class (the instanceof check at line 539 fails for the latter two). -/
inductive PriorHC where
| noPrior
| htmlPrior (h : HContentM)
| otherPrior (cid : Nat)
deriving DecidableEq

/-- The per-document template cache plus the model's fresh-identity supply:
cache maps a template literal's object identity to the compiled template's
identity. -/
structure HState where
  cache : List (Nat × Nat)
  nextId : Nat
deriving DecidableEq

/-- WeakMap lookup by key identity (makeCache, dope-effects lines 6-16). -/
def natLookup : List (Nat × Nat) → Nat → Option Nat
| [], _ => none
| (k, v) :: rest, q => if k = q then some v else natLookup rest q

/-- templateCache(document)(templateStrings) (makeCache at lines 6-16 applied
at lines 312-315): look the literal up by object identity; on a miss,
composeTemplate builds a fresh template element and the cache memoizes it, so
the same literal always yields the same template object and distinct literals
yield distinct ones. -/
def cacheGetOrCreate (st : HState) (lit : Nat) : Nat × HState :=
  match natLookup st.cache lit with
  | some t => (t, st)
  | none => (st.nextId, { cache := st.cache ++ [(lit, st.nextId)], nextId := st.nextId + 1 })

/-- The action returned by makeHTMLAction (dope-effects.ts lines 530-547)
evaluated against a prior content: resolve the compiled template through the
cache (line 536), then reuse the prior exactly when it is an HTMLContent
built from the identical template object (lines 539-540) — patch(v) keeps
the content's identity and every skeleton node, updating only the applied
values — and otherwise construct a fresh HTMLContent (line 544) whose
begin marker, cloned skeleton root and end marker are freshly allocated
nodes (three identities model the single-span scenario). -/
def makeHTMLActionEval (st : HState) (lit : Nat) (vals : List Nat) (prior : PriorHC) :
    HContentM × HState :=
  let r := cacheGetOrCreate st lit
  let tpl := r.1
  let st1 := r.2
  match prior with
  | .htmlPrior h =>
    if h.templateId = tpl then
      ({ h with slotValues := vals }, st1)
    else
      (⟨st1.nextId + 3, tpl, [st1.nextId, st1.nextId + 1, st1.nextId + 2], vals⟩,
       { st1 with nextId := st1.nextId + 4 })
  | _ =>
    (⟨st1.nextId + 3, tpl, [st1.nextId, st1.nextId + 1, st1.nextId + 2], vals⟩,
     { st1 with nextId := st1.nextId + 4 })

/-- Claim C1: the claim states that the render resolution loop converts every
not-yet-terminal value with the placement kind of the active Place. The code
does not: renderInPlace line 126 calls toAction(Placement.Element, action)
for every placement kind, so the loop resolves a string to a TextContent
(element content) even at an Attribute or Tag place, while the Attribute
registry — which the claim says would be consulted — would in fact throw from
makeJoinAction. The first conjunct evaluates the loop at every placement
kind and shows the identical Element-registry outcome; the others show the
Attribute registry would have behaved differently (makeJoinAction throws
before makeStringAction is consulted) and that the outcome really is the
Element text factory's. -/
theorem C1_loop_converts_with_fixed_element_kind :
    (∀ (plc : Placement) (pid : Nat),
      (renderInPlaceM 2 ⟨none, none, 0⟩ ⟨plc, pid, none⟩ (.raw (.vStr "x"))).2
        = .ok (.textC 1 "x"))
    ∧ toActionAttribute (.vStr "x") = .error "join action not implemented"
    ∧ producesText (toActionElement (.vStr "x")) = true :=
  ⟨fun _ _ => rfl, rfl, rfl⟩

/-- Claim C2 counterexample: the claim states that null and undefined render
as text at Element placement. They do not: the factory loop runs
makeArrayAction before makeTextAction (newest-registered first over
[makeTextAction, makeArrayAction]), and makeArrayAction accepts null and
undefined by coercing them to [], so conversion yields an (empty) array
action, not a text action. -/
theorem C2_null_renders_array_counterexample :
    producesText (toActionElement .vNull) = false
    ∧ toActionElement .vNull = .ok (.arrayAct [])
    ∧ producesText (toActionElement .vUndefined) = false
    ∧ toActionElement .vUndefined = .ok (.arrayAct []) :=
  ⟨rfl, rfl, rfl, rfl⟩

/-- Claim C2 (amended): at Element placement, numbers and strings convert to
text actions and render as text nodes; null and undefined are accepted by the
array factory (tried first) as empty arrays, yielding an empty ArrayList
rather than text; an array converts each item recursively at Element
placement into an ArrayList. -/
theorem C2_element_builtins :
    (∀ n : Int, toActionElement (.vNum n) = .ok (.textAct (jsNumToString n)))
    ∧ (∀ s : String, toActionElement (.vStr s) = .ok (.textAct s))
    ∧ toActionElement .vNull = .ok (.arrayAct [])
    ∧ toActionElement .vUndefined = .ok (.arrayAct [])
    ∧ (∀ items : List JSValue,
        toActionElement (.vArr items) = (convertItems items).map ElemAct.arrayAct)
    ∧ (∀ s : String,
        renderedText (renderInPlaceM 2 ⟨none, none, 0⟩ ⟨.element, 0, none⟩ (.raw (.vStr s)))
          = some s)
    ∧ (∀ n : Int,
        renderedText (renderInPlaceM 2 ⟨none, none, 0⟩ ⟨.element, 0, none⟩ (.raw (.vNum n)))
          = some (jsNumToString n)) :=
  ⟨fun _ => rfl, fun _ => rfl, rfl, rfl, fun _ => rfl, fun _ => rfl, fun _ => rfl⟩

/-- Claim C3: the claim states that an entry's derived key is identical every
time it is computed within a pass and that explicit and positional key
namespaces never collide. The getKey closure's body parses as
(_key || (key() != null)) ? 'key-' + key() : 'index-' + index++, so for an
unkeyed entry the first computation yields 'index-p' but every later one —
in particular the one that stores the new content — yields 'key-undefined':
the lookup key and the store key differ, all unkeyed entries collide on the
stored key 'key-undefined' (which also collides with the explicit key
'undefined'), and on the next pass an unkeyed entry's positional lookup
misses, losing its identity. The conjuncts evaluate getKey's two calls, the
collision with an explicit 'undefined' key, a pass over two unkeyed entries
(whose stored key map collapses to one entry), and a follow-up pass in which
the unkeyed entry fails to match the surviving prior content. -/
theorem C3_getKey_unstable_and_colliding :
    getKey none none 0 = ("index-0", some "index-0", 1)
    ∧ getKey (some "index-0") none 1 = ("key-undefined", some "key-undefined", 1)
    ∧ getKey none (some "undefined") 0 = ("key-undefined", some "key-undefined", 0)
    ∧ (patchM ⟨0, [], []⟩ [0] [⟨none, 0, 11, [101]⟩, ⟨none, 0, 12, [102]⟩]).1.contentsByKey
        = [("key-undefined", ⟨12, 0, [102]⟩)]
    ∧ (patchM ⟨0, [⟨11, 0, [101]⟩, ⟨12, 0, [102]⟩], [("key-undefined", ⟨12, 0, [102]⟩)]⟩
        [0, 101, 102] [⟨none, 0, 13, [103]⟩]).2.2
        = [⟨13, [103], none, true⟩] :=
  ⟨rfl, rfl, rfl, rfl, rfl⟩

/-- Claim C5: the claim states that conversion at Attribute placement
succeeds for null, numbers and strings. It does not: the factory loop runs
makeJoinAction before makeStringAction (newest-registered first over
[makeStringAction, makeJoinAction]), and makeJoinAction unconditionally
throws 'join action not implemented' instead of declining, so every
non-function attribute value fails to convert. The last conjunct records
that makeStringAction itself would have accepted the value, had it been
reached. -/
theorem C5_attribute_conversion_throws :
    toActionAttribute .vNull = .error "join action not implemented"
    ∧ (∀ n : Int, toActionAttribute (.vNum n) = .error "join action not implemented")
    ∧ (∀ s : String, toActionAttribute (.vStr s) = .error "join action not implemented")
    ∧ makeStringActionF (.vStr "x") = .ok (some (.stringAct "x"))
    ∧ makeStringActionF .vNull = .ok (some (.stringAct "")) :=
  ⟨rfl, fun _ => rfl, fun _ => rfl, rfl, rfl⟩

/-- Claim C6 counterexample: the claim states the saved Place/Action globals
are restored on every exit path of a render call, including a throw. They
are not: renderInPlace has no try/finally, so when conversion throws (here:
rendering true at an Element place, which no factory accepts), the call
exits with _place still holding the failed call's place (pid 7) instead of
the saved parent (pid 1). -/
theorem C6_throw_leaks_place_counterexample :
    renderInPlaceM 2 ⟨some 1, some 2, 3⟩ ⟨.element, 7, none⟩ (.raw (.vBool true))
      = (⟨some 7, some 2, 3⟩, .error (convFailMsg .element (.vBool true)))
    ∧ (⟨some 7, some 2, 3⟩ : RState).curPlace ≠ (⟨some 1, some 2, 3⟩ : RState).curPlace :=
  ⟨rfl, by decide⟩

/-- Claim C6 (amended): the process-wide current Place and current Action are
saved before the resolution loop and restored when the render call completes
normally; when the loop throws, the function exits without restoring them,
leaving the failed call's context installed. -/
theorem C6_place_restored_on_normal_exit (fuel : Nat) (st : RState) (p : PlaceM) (v : RVal)
    (st2 : RState) (c : ContentM)
    (h : renderInPlaceM fuel st p v = (st2, .ok c)) :
    st2.curPlace = st.curPlace ∧ st2.curAction = st.curAction := by
  simp only [renderInPlaceM] at h
  split at h
  · injection h with h1 h2
    subst h1
    exact ⟨rfl, rfl⟩
  · injection h with h1 h2
    exact absurd h2 (by simp)

/-- Witness for C6's amended theorem: a concrete successful render (of the
string "hi" at a fresh Element place) restores the saved globals. -/
theorem C6_place_restored_on_normal_exit_witness :
    (⟨some 1, some 2, 2⟩ : RState).curPlace = (⟨some 1, some 2, 0⟩ : RState).curPlace
    ∧ (⟨some 1, some 2, 2⟩ : RState).curAction = (⟨some 1, some 2, 0⟩ : RState).curAction :=
  C6_place_restored_on_normal_exit 2 ⟨some 1, some 2, 0⟩ ⟨.element, 7, none⟩
    (.raw (.vStr "hi")) ⟨some 1, some 2, 2⟩ (.textC 1 "hi") rfl

/-- Helper: scanning a registry extended on the right (where defineAction
appends) consults the appended factory first. -/
theorem tryFactoriesDown_append_single {α : Type} (fs : List (FactoryM α)) (g : FactoryM α)
    (v : JSValue) :
    tryFactoriesDown (fs ++ [g]) v =
      match g v with
      | .error e => .error e
      | .ok (some a) => .ok (some a)
      | .ok none => tryFactoriesDown fs v := by
  induction fs with
  | nil =>
    cases hg : g v with
    | error e => simp [tryFactoriesDown, hg]
    | ok o => cases o <;> simp [tryFactoriesDown, hg]
  | cons f fs ih =>
    cases hg : g v with
    | error e => simp [tryFactoriesDown, ih, hg]
    | ok o => cases o <;> simp [tryFactoriesDown, ih, hg]

/-- Helper: the front-to-back scan distributes over a right-appended
factory. -/
theorem firstAccept_append_single {α : Type} (fs : List (FactoryM α)) (g : FactoryM α)
    (v : JSValue) :
    firstAccept (fs ++ [g]) v =
      match firstAccept fs v with
      | .ok none => g v
      | r => r := by
  induction fs with
  | nil =>
    cases hg : g v with
    | error e => simp [firstAccept, hg]
    | ok o => cases o <;> simp [firstAccept, hg]
  | cons f fs ih =>
    cases hf : f v with
    | error e => simp [firstAccept, hf]
    | ok o => cases o <;> simp [firstAccept, hf, ih]

/-- Helper: the downward scan of the registry equals the front-to-back scan
of the reversed registry — i.e. factories are consulted in
most-recently-registered-first order, first acceptance winning. -/
theorem tryFactoriesDown_eq_firstAccept_reverse {α : Type} (fs : List (FactoryM α))
    (v : JSValue) :
    tryFactoriesDown fs v = firstAccept fs.reverse v := by
  induction fs with
  | nil => rfl
  | cons f fs ih =>
    rw [List.reverse_cons, firstAccept_append_single, ← ih]
    cases h : tryFactoriesDown fs v with
    | error e => simp [tryFactoriesDown, h]
    | ok o => cases o <;> simp [tryFactoriesDown, h]

/-- Helper: when every factory declines, the downward scan reports no
acceptance. -/
theorem tryFactoriesDown_all_decline {α : Type} (fs : List (FactoryM α)) (v : JSValue)
    (h : ∀ f ∈ fs, f v = .ok none) : tryFactoriesDown fs v = .ok none := by
  induction fs with
  | nil => rfl
  | cons f fs ih =>
    have hf := h f (List.mem_cons_self f fs)
    have hre := ih (fun g hg => h g (List.mem_cons_of_mem f hg))
    simp [tryFactoriesDown, hre, hf]

/-- Claim C7: toAction returns a function value verbatim as the Action;
otherwise the factories registered for the kind are consulted in
most-recently-registered-first order (defineAction appends and the scan runs
from the end), the first factory returning an action wins (in particular a
just-registered accepting factory wins immediately), and when no factory
accepts a non-callable value, toAction throws the conversion-failure error
naming the offending value and the placement kind. -/
theorem C7_toAction_dispatch :
    (∀ (α : Type) (mkV : Nat → α) (plc : Placement) (fs : List (FactoryM α)) (fid : Nat),
        toActionG mkV plc fs (.vFun fid) = .ok (mkV fid))
    ∧ (∀ (α : Type) (fs : List (FactoryM α)) (v : JSValue),
        tryFactoriesDown fs v = firstAccept fs.reverse v)
    ∧ (∀ (α : Type) (mkV : Nat → α) (plc : Placement) (fs : List (FactoryM α))
        (g : FactoryM α) (v : JSValue) (a : α),
        isCallable v = false → g v = .ok (some a) →
        toActionG mkV plc (defineActionM fs g) v = .ok a)
    ∧ (∀ (α : Type) (mkV : Nat → α) (plc : Placement) (fs : List (FactoryM α)) (v : JSValue),
        isCallable v = false → (∀ f ∈ fs, f v = .ok none) →
        toActionG mkV plc fs v = .error (convFailMsg plc v)) := by
  refine ⟨fun α mkV plc fs fid => rfl,
          fun α fs v => tryFactoriesDown_eq_firstAccept_reverse fs v, ?_, ?_⟩
  · intro α mkV plc fs g v a hnc hg
    cases v <;> simp_all [toActionG, defineActionM, tryFactoriesDown_append_single, isCallable]
  · intro α mkV plc fs v hnc hall
    have hd := tryFactoriesDown_all_decline fs v hall
    cases v <;> simp_all [toActionG, isCallable]

/-- Witness for C7: a freshly appended accepting factory wins for a
non-callable value, and the empty registry makes conversion fail with the
message naming the value and the placement. -/
theorem C7_toAction_dispatch_witness :
    toActionG AttrAct.verbatimA Placement.tag
      (defineActionM [] (fun _ => .ok (some (.stringAct "w")))) (.vStr "a")
      = .ok (.stringAct "w")
    ∧ toActionG AttrAct.verbatimA Placement.tag [] (.vStr "a")
      = .error (convFailMsg .tag (.vStr "a")) := by
  constructor
  · exact C7_toAction_dispatch.2.2.1 AttrAct AttrAct.verbatimA .tag []
      (fun _ => .ok (some (.stringAct "w"))) (.vStr "a") (.stringAct "w") rfl rfl
  · exact C7_toAction_dispatch.2.2.2 AttrAct AttrAct.verbatimA .tag [] (.vStr "a") rfl
      (fun f hf => absurd hf (List.not_mem_nil f))

/-- Claim C10: at Element placement a boolean, symbol, bigint or plain
non-null object is accepted by neither makeArrayAction (which accepts only
null/undefined/arrays) nor makeTextAction (which accepts only
null/undefined/numbers/strings), so conversion — and hence the render that
performs it — throws the conversion-failure error; in particular rendering
true throws rather than rendering the text 'true'. -/
theorem C10_element_rejects_other_shapes :
    (∀ b : Bool, toActionElement (.vBool b) = .error (convFailMsg .element (.vBool b)))
    ∧ (∀ oid : Nat, toActionElement (.vObj oid) = .error (convFailMsg .element (.vObj oid)))
    ∧ (∀ sid : Nat, toActionElement (.vSym sid) = .error (convFailMsg .element (.vSym sid)))
    ∧ (∀ n : Int, toActionElement (.vBigInt n) = .error (convFailMsg .element (.vBigInt n)))
    ∧ (renderInPlaceM 2 ⟨none, none, 0⟩ ⟨.element, 0, none⟩ (.raw (.vBool true))).2
        = .error (convFailMsg .element (.vBool true))
    ∧ convFailMsg .element (.vBool true)
        = "Failed to convert argument true to action for element." :=
  ⟨fun _ => rfl, fun _ => rfl, fun _ => rfl, fun _ => rfl, rfl, rfl⟩

/-- Helper: composing a template never lowers the fresh-identity supply. -/
theorem cacheGetOrCreate_nextId_le (st : HState) (lit : Nat) :
    st.nextId ≤ (cacheGetOrCreate st lit).2.nextId := by
  unfold cacheGetOrCreate
  split <;> simp

/-- Helper: when the prior HTMLContent was built from a different template
object, makeHTMLAction constructs a fresh HTMLContent with freshly allocated
skeleton nodes. -/
theorem makeHTMLActionEval_fresh_of_ne (st : HState) (lit : Nat) (vals : List Nat)
    (h : HContentM) (hne : h.templateId ≠ (cacheGetOrCreate st lit).1) :
    makeHTMLActionEval st lit vals (.htmlPrior h)
      = (⟨(cacheGetOrCreate st lit).2.nextId + 3, (cacheGetOrCreate st lit).1,
          [(cacheGetOrCreate st lit).2.nextId, (cacheGetOrCreate st lit).2.nextId + 1,
           (cacheGetOrCreate st lit).2.nextId + 2], vals⟩,
         { (cacheGetOrCreate st lit).2 with nextId := (cacheGetOrCreate st lit).2.nextId + 4 }) := by
  simp [makeHTMLActionEval, hne]

/-- Claim C8: a template instance is patched in place exactly when the prior
content is an HTMLContent built from the identical compiled template object.
Part one: with an HTMLContent prior holding the same template identity, the
action patches in place — same content object, same skeleton nodes, values
updated. Part two: with an HTMLContent prior of a different template, a
fresh content is built whose identity and skeleton nodes are disjoint from
the prior's. Part three: any non-HTMLContent prior forces fresh
construction. Part four: rendering the same literal twice against the same
mount patches in place (the cache returns the identical template), while
part five shows a different literal at the same mount yields fresh nodes. -/
theorem C8_template_reuse :
    (∀ (st : HState) (lit : Nat) (vals : List Nat) (h : HContentM),
        h.templateId = (cacheGetOrCreate st lit).1 →
        makeHTMLActionEval st lit vals (.htmlPrior h)
          = ({ h with slotValues := vals }, (cacheGetOrCreate st lit).2))
    ∧ (∀ (st : HState) (lit : Nat) (vals : List Nat) (h : HContentM),
        h.templateId ≠ (cacheGetOrCreate st lit).1 →
        h.cid < st.nextId → (∀ n ∈ h.skeleton, n < st.nextId) →
        (makeHTMLActionEval st lit vals (.htmlPrior h)).1.cid ≠ h.cid
        ∧ ((makeHTMLActionEval st lit vals (.htmlPrior h)).1.skeleton.all
            (fun n => !(h.skeleton.contains n))) = true)
    ∧ (∀ (st : HState) (lit : Nat) (vals : List Nat),
        makeHTMLActionEval st lit vals .noPrior
          = (⟨(cacheGetOrCreate st lit).2.nextId + 3, (cacheGetOrCreate st lit).1,
              [(cacheGetOrCreate st lit).2.nextId, (cacheGetOrCreate st lit).2.nextId + 1,
               (cacheGetOrCreate st lit).2.nextId + 2], vals⟩,
             { (cacheGetOrCreate st lit).2 with
                 nextId := (cacheGetOrCreate st lit).2.nextId + 4 }))
    ∧ (∀ (lit : Nat) (v1 v2 : List Nat),
        let r1 := makeHTMLActionEval ⟨[], 0⟩ lit v1 .noPrior
        let r2 := makeHTMLActionEval r1.2 lit v2 (.htmlPrior r1.1)
        r2.1.cid = r1.1.cid ∧ r2.1.skeleton = r1.1.skeleton
        ∧ r2.1.templateId = r1.1.templateId ∧ r2.1.slotValues = v2)
    ∧ (∀ (lit1 lit2 : Nat) (v1 v2 : List Nat), lit1 ≠ lit2 →
        let r1 := makeHTMLActionEval ⟨[], 0⟩ lit1 v1 .noPrior
        let r2 := makeHTMLActionEval r1.2 lit2 v2 (.htmlPrior r1.1)
        r2.1.cid ≠ r1.1.cid
        ∧ (r2.1.skeleton.all (fun n => !(r1.1.skeleton.contains n))) = true) := by
  refine ⟨?_, ?_, ?_, ?_, ?_⟩
  · intro st lit vals h hsame
    simp [makeHTMLActionEval, hsame]
  · intro st lit vals h hne hcid hsk
    have hle := cacheGetOrCreate_nextId_le st lit
    rw [makeHTMLActionEval_fresh_of_ne st lit vals h hne]
    constructor
    · simp only []
      omega
    · simp only [List.all_eq_true, List.mem_cons, List.not_mem_nil, or_false]
      intro n hn
      have : st.nextId ≤ n := by omega
      have hnot : n ∉ h.skeleton := fun hmem => absurd (hsk n hmem) (by omega)
      simpa using hnot
  · intro st lit vals
    simp [makeHTMLActionEval]
  · intro lit v1 v2
    have h1 : natLookup ([] : List (Nat × Nat)) lit = none := rfl
    have h2 : natLookup [(lit, 0)] lit = some 0 := by simp [natLookup]
    simp [makeHTMLActionEval, cacheGetOrCreate, h1, h2]
  · intro lit1 lit2 v1 v2 hne
    have h1 : natLookup ([] : List (Nat × Nat)) lit1 = none := rfl
    have h2 : natLookup [(lit1, 0)] lit2 = none := by simp [natLookup, hne]
    simp [makeHTMLActionEval, cacheGetOrCreate, h1, h2]

/-- Witness for C8: concrete applications of the in-place-patch case, the
different-template case and the different-literal scenario. -/
theorem C8_template_reuse_witness :
    (makeHTMLActionEval ⟨[(5, 9)], 20⟩ 5 [2] (.htmlPrior ⟨17, 9, [10, 11, 12], [1]⟩)
      = (⟨17, 9, [10, 11, 12], [2]⟩, ⟨[(5, 9)], 20⟩))
    ∧ ((makeHTMLActionEval ⟨[(5, 9)], 20⟩ 5 [2]
          (.htmlPrior ⟨17, 3, [10, 11, 12], [1]⟩)).1.cid ≠ 17)
    ∧ (let r1 := makeHTMLActionEval ⟨[], 0⟩ 0 [7] .noPrior
       let r2 := makeHTMLActionEval r1.2 1 [8] (.htmlPrior r1.1)
       r2.1.cid ≠ r1.1.cid
       ∧ (r2.1.skeleton.all (fun n => !(r1.1.skeleton.contains n))) = true) := by
  refine ⟨?_, ?_, ?_⟩
  · exact C8_template_reuse.1 ⟨[(5, 9)], 20⟩ 5 [2] ⟨17, 9, [10, 11, 12], [1]⟩ (by decide)
  · exact (C8_template_reuse.2.1 ⟨[(5, 9)], 20⟩ 5 [2] ⟨17, 3, [10, 11, 12], [1]⟩
      (by decide) (by decide) (by decide)).1
  · exact C8_template_reuse.2.2.2.2 0 1 [7] [8] (by decide)

/-- Helper: the new mark after one reconciliation step. -/
theorem stepMFull_mark (s : PassState) (it : PassItem) :
    (stepMFull s it).1.mark = nextMark s.mark ((stepMFull s it).2.matched) := by
  simp [stepMFull]

/-- Helper: the step's move flag is determined by the mark and the matched
old ordinal. -/
theorem stepMFull_moved (s : PassState) (it : PassItem) :
    (stepMFull s it).2.moved = stepDecision s.mark ((stepMFull s it).2.matched) := by
  simp [stepMFull]

/-- Helper: the step leaves the child list unchanged on the in-place branch
and splices the node range before the cursor otherwise. -/
theorem stepMFull_dom (s : PassState) (it : PassItem) :
    (stepMFull s it).1.dom =
      if (stepMFull s it).2.moved then
        insertBeforeNext (removeNodes s.dom (stepMFull s it).2.nodes) s.next
          (stepMFull s it).2.nodes
      else s.dom := by
  simp [stepMFull]

/-- Helper: the cursor advances past the matched range on the in-place
branch and is unchanged otherwise. -/
theorem stepMFull_next (s : PassState) (it : PassItem) :
    (stepMFull s it).1.next =
      if (stepMFull s it).2.moved then s.next
      else nextSiblingOfLast s.dom (stepMFull s it).2.nodes := by
  simp [stepMFull]

/-- Helper: the previous pass's key map is read-only during the pass. -/
theorem stepMFull_oldByKey (s : PassState) (it : PassItem) :
    (stepMFull s it).1.oldByKey = s.oldByKey := by
  simp [stepMFull]

/-- Helper: unfolding one iteration of the item loop. -/
theorem runItems_cons (s : PassState) (it : PassItem) (its : List PassItem) :
    runItems s (it :: its)
      = ((runItems (stepMFull s it).1 its).1,
         (stepMFull s it).2 :: (runItems (stepMFull s it).1 its).2) := by
  simp [runItems]

/-- Helper, the induction behind the minimal-move property: when the old
ordinals of the in-place-matched entries are realized in strictly increasing
order, and the incoming mark is below the first of them, no matched entry is
physically moved. -/
theorem runItems_no_matched_move (its : List PassItem) :
    ∀ s : PassState,
      List.Chain' (· < ·) ((runItems s its).2.filterMap StepLog.matched) →
      (∀ m : Nat, ((runItems s its).2.filterMap StepLog.matched).head? = some m →
        s.mark < (m : Int)) →
      ∀ e ∈ (runItems s its).2, e.matched.isSome = true → e.moved = false := by
  induction its with
  | nil =>
    intro s _ _ e he
    simp [runItems] at he
  | cons it its ih =>
    intro s hch hhd e he
    rw [runItems_cons] at hch hhd he
    rcases List.mem_cons.mp he with he1 | he2
    · subst he1
      intro hsome
      cases hm : (stepMFull s it).2.matched with
      | none => rw [hm] at hsome; cases hsome
      | some m =>
        have hlt : s.mark < (m : Int) := by
          apply hhd m
          simp [List.filterMap_cons, hm]
        rw [stepMFull_moved, hm]
        simp [stepDecision, hlt]
    · intro hsome
      cases hm : (stepMFull s it).2.matched with
      | none =>
        refine ih (stepMFull s it).1 ?_ ?_ e he2 hsome
        · simpa [List.filterMap_cons, hm] using hch
        · intro m hme
          have hs := hhd m (by simpa [List.filterMap_cons, hm] using hme)
          rw [stepMFull_mark, hm]
          simpa [nextMark] using hs
      | some m =>
        have hlt : s.mark < (m : Int) := by
          apply hhd m
          simp [List.filterMap_cons, hm]
        rw [List.filterMap_cons, hm] at hch
        refine ih (stepMFull s it).1 ?_ ?_ e he2 hsome
        · exact hch.tail
        · intro m2 hme2
          have hmm2 : m < m2 := (List.chain'_cons'.mp hch).1 m2 hme2
          rw [stepMFull_mark, hm]
          simp only [nextMark, if_pos hlt]
          exact_mod_cast hmm2

/-- Claim C4: keyed-list reconciliation is a single left-to-right pass with a
high-water mark over previous-pass ordinals. Part one: a matched entry whose
old ordinal exceeds the mark is not physically moved — the child list is
untouched, the mark rises to its ordinal and the cursor advances past its
node range. Part two: an entry whose old ordinal is at or below the mark, or
which is freshly constructed, has its node range spliced in immediately
before the cursor, leaving mark and cursor as they were. Part three
(consequence): when the matched entries' old ordinals are realized in
strictly increasing order — i.e. the new order preserves the old relative
order of all matched entries — no matched entry is physically moved. -/
theorem C4_minimal_move_scan :
    (∀ (s : PassState) (it : PassItem) (m : Nat),
        (stepMFull s it).2.matched = some m → s.mark < (m : Int) →
        (stepMFull s it).2.moved = false
        ∧ (stepMFull s it).1.mark = (m : Int)
        ∧ (stepMFull s it).1.dom = s.dom
        ∧ (stepMFull s it).1.next = nextSiblingOfLast s.dom (stepMFull s it).2.nodes)
    ∧ (∀ (s : PassState) (it : PassItem),
        ((stepMFull s it).2.matched = none
          ∨ ∃ m : Nat, (stepMFull s it).2.matched = some m ∧ ¬ s.mark < (m : Int)) →
        (stepMFull s it).2.moved = true
        ∧ (stepMFull s it).1.dom
            = insertBeforeNext (removeNodes s.dom (stepMFull s it).2.nodes) s.next
                (stepMFull s it).2.nodes
        ∧ (stepMFull s it).1.next = s.next
        ∧ (stepMFull s it).1.mark = s.mark)
    ∧ (∀ (st : ArrState) (dom : List Nat) (items : List PassItem),
        List.Chain' (· < ·) ((patchM st dom items).2.2.filterMap StepLog.matched) →
        noMatchedMoved (patchM st dom items).2.2 = true) := by
  refine ⟨?_, ?_, ?_⟩
  · intro s it m hm hlt
    have hmov : (stepMFull s it).2.moved = false := by
      rw [stepMFull_moved, hm]
      simp [stepDecision, hlt]
    refine ⟨hmov, ?_, ?_, ?_⟩
    · rw [stepMFull_mark, hm]
      simp [nextMark, hlt]
    · rw [stepMFull_dom, hmov]
      simp
    · rw [stepMFull_next, hmov]
      simp
  · intro s it hcase
    have hmov : (stepMFull s it).2.moved = true := by
      rw [stepMFull_moved]
      rcases hcase with hm | ⟨m, hm, hnlt⟩
      · rw [hm]; rfl
      · rw [hm]; simp [stepDecision, hnlt]
    refine ⟨hmov, ?_, ?_, ?_⟩
    · rw [stepMFull_dom, hmov]
      simp
    · rw [stepMFull_next, hmov]
      simp
    · rw [stepMFull_mark]
      rcases hcase with hm | ⟨m, hm, hnlt⟩
      · rw [hm]; rfl
      · rw [hm]; simp [nextMark, hnlt]
  · intro st dom items hch
    simp only [patchM] at hch ⊢
    rw [noMatchedMoved, List.all_eq_true]
    intro e he
    have hmain := runItems_no_matched_move items _ hch
      (fun m _ => by simp; omega) e he
    cases hs : e.matched.isSome with
    | false => simp [hs]
    | true => simp [hs, hmain hs]

/-- Witness for C4: a concrete pass over two explicitly keyed entries that
both match their prior contents in increasing old order — the realized
matched ordinals are chained and no matched entry moves. -/
theorem C4_minimal_move_scan_witness :
    List.Chain' (· < ·)
      ((patchM ⟨0, [⟨1, 0, [10]⟩, ⟨2, 0, [20]⟩],
          [("key-a", ⟨1, 0, [10]⟩), ("key-b", ⟨2, 0, [20]⟩)]⟩
          [0, 10, 20]
          [⟨some "a", 0, 5, [30]⟩, ⟨some "b", 0, 6, [40]⟩]).2.2.filterMap StepLog.matched)
    ∧ noMatchedMoved
        (patchM ⟨0, [⟨1, 0, [10]⟩, ⟨2, 0, [20]⟩],
          [("key-a", ⟨1, 0, [10]⟩), ("key-b", ⟨2, 0, [20]⟩)]⟩
          [0, 10, 20]
          [⟨some "a", 0, 5, [30]⟩, ⟨some "b", 0, 6, [40]⟩]).2.2 = true := by
  refine ⟨?_, ?_⟩
  · show List.Chain' (· < ·) [0, 1]
    exact List.chain'_pair.mpr (by decide)
  · exact C4_minimal_move_scan.2.2 _ _ _ (by
      show List.Chain' (· < ·) [0, 1]
      exact List.chain'_pair.mpr (by decide))

/-- Helper: membership survives the removal of a disjoint node range. -/
theorem mem_removeNodes_of_mem {dom ns : List Nat} {a : Nat} (h : a ∈ dom) (hn : a ∉ ns) :
    a ∈ removeNodes dom ns := by
  unfold removeNodes
  rw [List.mem_filter]
  exact ⟨h, by simpa using hn⟩

/-- Helper: removal only shrinks the child list. -/
theorem mem_of_mem_removeNodes {dom ns : List Nat} {a : Nat} (h : a ∈ removeNodes dom ns) :
    a ∈ dom := (List.mem_filter.mp h).1

/-- Helper: a detached node is gone from the child list. -/
theorem not_mem_removeNodes_self {dom ns : List Nat} {a : Nat} (h : a ∈ ns) :
    a ∉ removeNodes dom ns := by
  intro hmem
  have h2 := (List.mem_filter.mp hmem).2
  simp at h2
  exact h2 h

/-- Helper: detaching nodes that are not present leaves the list alone. -/
theorem removeNodes_eq_self {dom ns : List Nat} (h : ∀ a ∈ dom, a ∉ ns) :
    removeNodes dom ns = dom := by
  unfold removeNodes
  rw [List.filter_eq_self]
  intro a ha
  simpa using h a ha

/-- Helper: splicing preserves the existing members of the child list. -/
theorem mem_insertBeforeNext_of_mem {dom ns : List Nat} {nx : Option Nat} {a : Nat}
    (h : a ∈ dom) : a ∈ insertBeforeNext dom nx ns := by
  cases nx with
  | none => exact List.mem_append_left _ h
  | some n =>
    unfold insertBeforeNext
    have h2 : a ∈ dom.takeWhile (fun x => decide (x ≠ n))
        ++ dom.dropWhile (fun x => decide (x ≠ n)) := by
      rw [List.takeWhile_append_dropWhile]
      exact h
    rcases List.mem_append.mp h2 with h3 | h4
    · exact List.mem_append_left _ (List.mem_append_left _ h3)
    · exact List.mem_append_right _ h4

/-- Helper: the sibling after a node that first occurs at the head of the
second half of the list. -/
theorem sibAfter_append_self (xs ys : List Nat) (mk : Nat) (hmk : mk ∉ xs) :
    sibAfter (xs ++ mk :: ys) mk = ys.head? := by
  induction xs with
  | nil => simp [sibAfter]
  | cons x xs ih =>
    have hx : ¬ x = mk := fun he => hmk (he ▸ List.mem_cons_self x xs)
    simpa [sibAfter, hx] using ih (fun hm => hmk (List.mem_cons_of_mem x hm))

/-- Helper: takeWhile passes over a prefix on which the predicate holds. -/
theorem takeWhile_append_of_all {p : Nat → Bool} (l1 l2 : List Nat)
    (h : ∀ a ∈ l1, p a = true) :
    (l1 ++ l2).takeWhile p = l1 ++ l2.takeWhile p := by
  induction l1 with
  | nil => simp
  | cons x xs ih =>
    have hx := h x (List.mem_cons_self x xs)
    simp [List.takeWhile_cons, hx, ih (fun a ha => h a (List.mem_cons_of_mem x ha))]

/-- Helper: dropWhile discards a prefix on which the predicate holds. -/
theorem dropWhile_append_of_all {p : Nat → Bool} (l1 l2 : List Nat)
    (h : ∀ a ∈ l1, p a = true) :
    (l1 ++ l2).dropWhile p = l2.dropWhile p := by
  induction l1 with
  | nil => simp
  | cons x xs ih =>
    have hx := h x (List.mem_cons_self x xs)
    simp [List.dropWhile_cons, hx, ih (fun a ha => h a (List.mem_cons_of_mem x ha))]

/-- Helper: a successful key-map lookup returns a stored content. -/
theorem assocLookup_mem {β : Type} {l : List (String × β)} {q : String} {b : β} :
    assocLookup l q = some b → ∃ k, (k, b) ∈ l := by
  induction l with
  | nil => intro h; cases h
  | cons p rest ih =>
    intro h
    rcases p with ⟨k, x⟩
    unfold assocLookup at h
    split at h
    · injection h with h2
      subst h2
      exact ⟨k, List.mem_cons_self _ _⟩
    · rcases ih h with ⟨k2, hk2⟩
      exact ⟨k2, List.mem_cons_of_mem _ hk2⟩

/-- Helper: the node range resolved for an entry is either the range of a
previous-pass content (found under the derived key) or the entry's fresh
range. -/
theorem resolveContent_nodes_cases (s : PassState) (it : PassItem) :
    (∃ k c, (k, c) ∈ s.oldByKey ∧ (resolveContent s it).1.nodes = c.nodes)
    ∨ (resolveContent s it).1.nodes = it.newNodes := by
  rcases hc : assocLookup s.oldByKey (getKey none it.key s.idx).1 with _ | c
  · exact Or.inr (by simp [resolveContent, hc])
  · rcases assocLookup_mem hc with ⟨k, hk⟩
    by_cases hkind : c.kind = it.kind
    · exact Or.inl ⟨k, c, hk, by simp [resolveContent, hc, hkind]⟩
    · exact Or.inr (by simp [resolveContent, hc, hkind])

/-- Helper: the log entry records the resolved content's node range. -/
theorem stepMFull_nodes (s : PassState) (it : PassItem) :
    (stepMFull s it).2.nodes = (resolveContent s it).1.nodes := by
  simp [stepMFull]

/-- Helper: the step shrinks indicesByContent by at most one entry. -/
theorem stepMFull_indices (s : PassState) (it : PassItem) :
    (stepMFull s it).1.indices = removeIdx s.indices (resolveContent s it).1.cid := by
  simp [stepMFull]

/-- Helper: one reconciliation step never removes a node outside the
resolved content's range — in particular not the boundary marker. -/
theorem step_preserves_marker (s : PassState) (it : PassItem) (mk : Nat)
    (hdom : mk ∈ s.dom)
    (hold : ∀ p ∈ s.oldByKey, mk ∉ p.2.nodes)
    (hnew : mk ∉ it.newNodes) :
    mk ∈ (stepMFull s it).1.dom := by
  have hc : mk ∉ (resolveContent s it).1.nodes := by
    rcases resolveContent_nodes_cases s it with ⟨k, c, hkc, hn⟩ | hn
    · rw [hn]; exact hold (k, c) hkc
    · rw [hn]; exact hnew
  rw [stepMFull_dom, stepMFull_nodes]
  split
  · exact mem_insertBeforeNext_of_mem (mem_removeNodes_of_mem hdom hc)
  · exact hdom

/-- Helper: the whole item loop preserves the boundary marker in the child
list, as long as no content range contains it. -/
theorem runItems_preserves_marker (its : List PassItem) :
    ∀ (s : PassState) (mk : Nat),
      mk ∈ s.dom →
      (∀ p ∈ s.oldByKey, mk ∉ p.2.nodes) →
      (∀ it2 ∈ its, mk ∉ it2.newNodes) →
      mk ∈ (runItems s its).1.dom := by
  induction its with
  | nil =>
    intro s mk h _ _
    simpa [runItems] using h
  | cons it its ih =>
    intro s mk hdom hold hnew
    rw [runItems_cons]
    refine ih (stepMFull s it).1 mk
      (step_preserves_marker s it mk hdom hold (hnew it (List.mem_cons_self it its)))
      ?_ (fun j hj => hnew j (List.mem_cons_of_mem it hj))
    rw [stepMFull_oldByKey]
    exact hold

/-- Helper: whatever remains in indicesByContent after the loop was there
at the start. -/
theorem runItems_indices_subset (its : List PassItem) :
    ∀ (s : PassState), ∀ p ∈ (runItems s its).1.indices, p ∈ s.indices := by
  induction its with
  | nil =>
    intro s p hp
    simpa [runItems] using hp
  | cons it its ih =>
    intro s p hp
    rw [runItems_cons] at hp
    have h2 := ih (stepMFull s it).1 p hp
    rw [stepMFull_indices] at h2
    exact List.mem_of_mem_filter h2

/-- Helper: unfolding one step of the cleanup loop. -/
theorem cleanupDom_cons (dom : List Nat) (p : CItem × Nat) (rest : List (CItem × Nat)) :
    cleanupDom dom (p :: rest) = cleanupDom (removeNodes dom p.1.nodes) rest := by
  simp [cleanupDom]

/-- Helper: cleanup only shrinks the child list. -/
theorem mem_of_mem_cleanupDom (l : List (CItem × Nat)) :
    ∀ (dom : List Nat) (a : Nat), a ∈ cleanupDom dom l → a ∈ dom := by
  induction l with
  | nil => intro dom a h; exact h
  | cons p rest ih =>
    intro dom a h
    rw [cleanupDom_cons] at h
    exact mem_of_mem_removeNodes (ih _ a h)

/-- Helper: a node outside every removed range survives cleanup. -/
theorem mem_cleanupDom_of_mem (l : List (CItem × Nat)) :
    ∀ (dom : List Nat) (mk : Nat), mk ∈ dom → (∀ p ∈ l, mk ∉ p.1.nodes) →
      mk ∈ cleanupDom dom l := by
  induction l with
  | nil => intro dom mk h _; exact h
  | cons p rest ih =>
    intro dom mk h hl
    rw [cleanupDom_cons]
    exact ih _ mk (mem_removeNodes_of_mem h (hl p (List.mem_cons_self p rest)))
      (fun q hq => hl q (List.mem_cons_of_mem p hq))

/-- Helper: every node of an unmatched previous content is removed by
cleanup. -/
theorem not_mem_cleanupDom (l : List (CItem × Nat)) :
    ∀ (dom : List Nat) (c : CItem) (i n : Nat),
      (c, i) ∈ l → n ∈ c.nodes → n ∉ cleanupDom dom l := by
  induction l with
  | nil => intro dom c i n h; cases h
  | cons p rest ih =>
    intro dom c i n hmem hn hcon
    rw [cleanupDom_cons] at hcon
    rcases List.mem_cons.mp hmem with h1 | h2
    · have hin : n ∈ removeNodes dom p.1.nodes := mem_of_mem_cleanupDom rest _ n hcon
      have hnp : n ∈ p.1.nodes := by
        subst h1
        exact hn
      exact not_mem_removeNodes_self hnp hin
    · exact ih _ c i n h2 hn hcon

/-- Helper: every previous content appears in the enumerated index map. -/
theorem exists_mem_enumContentsFrom {l : List CItem} {c : CItem} (h : c ∈ l) :
    ∀ i : Nat, ∃ j, (c, j) ∈ enumContentsFrom i l := by
  induction l with
  | nil => cases h
  | cons x rest ih =>
    intro i
    rcases List.mem_cons.mp h with h1 | h2
    · exact ⟨i, by rw [h1]; exact List.mem_cons_self _ _⟩
    · rcases ih h2 (i + 1) with ⟨j, hj⟩
      exact ⟨j, List.mem_cons_of_mem _ hj⟩

/-- Helper: the enumerated index map only holds previous contents. -/
theorem fst_mem_of_mem_enumContentsFrom {l : List CItem} :
    ∀ (i : Nat) (p : CItem × Nat), p ∈ enumContentsFrom i l → p.1 ∈ l := by
  induction l with
  | nil => intro i p h; cases h
  | cons x rest ih =>
    intro i p h
    rcases List.mem_cons.mp h with h1 | h2
    · rw [h1]; exact List.mem_cons_self _ _
    · exact List.mem_cons_of_mem _ (ih (i + 1) p h2)

/-- Claim C9: the ArrayList's boundary marker is never removed by a
reconciliation pass. Part one: for every pass, if the marker is in the child
list and no content node range contains it (old contents, the key map's
contents, and the entries' fresh ranges), it is still in the child list
afterwards. Part two: reconciling down to the empty array removes every
previous item's nodes (while part one keeps the marker). Part three:
reconciling the empty array up to one element inserts that element's nodes
immediately after the marker. -/
theorem C9_marker_preserved :
    (∀ (st : ArrState) (dom : List Nat) (items : List PassItem),
        st.marker ∈ dom →
        (∀ p ∈ st.contentsByKey, st.marker ∉ p.2.nodes) →
        (∀ c ∈ st.contents, st.marker ∉ c.nodes) →
        (∀ it ∈ items, st.marker ∉ it.newNodes) →
        st.marker ∈ (patchM st dom items).2.1)
    ∧ (∀ (st : ArrState) (dom : List Nat),
        (patchM st dom []).2.1 = cleanupDom dom (enumContents st.contents)
        ∧ ∀ c ∈ st.contents, ∀ n ∈ c.nodes, n ∉ (patchM st dom []).2.1)
    ∧ (∀ (mk : Nat) (xs ys : List Nat) (it : PassItem),
        (xs ++ mk :: ys).Nodup →
        (∀ a ∈ xs ++ mk :: ys, a ∉ it.newNodes) →
        (patchM ⟨mk, [], []⟩ (xs ++ mk :: ys) [it]).2.1
          = xs ++ mk :: (it.newNodes ++ ys)) := by
  refine ⟨?_, ?_, ?_⟩
  · intro st dom items hdom holdk holdc hnew
    simp only [patchM]
    apply mem_cleanupDom_of_mem
    · exact runItems_preserves_marker items _ st.marker hdom holdk hnew
    · intro p hp
      have hp2 := runItems_indices_subset items _ p hp
      exact holdc p.1 (fst_mem_of_mem_enumContentsFrom 0 p hp2)
  · intro st dom
    constructor
    · simp [patchM, runItems]
    · intro c hc n hn
      simp only [patchM, runItems, enumContents]
      rcases exists_mem_enumContentsFrom hc 0 with ⟨j, hj⟩
      exact not_mem_cleanupDom _ _ c j n hj hn
  · intro mk xs ys it hnd hdisj
    have hmkxs : mk ∉ xs := fun hm =>
      (List.nodup_append.mp hnd).2.2 hm (List.mem_cons_self mk ys)
    have hnext : sibAfter (xs ++ mk :: ys) mk = ys.head? :=
      sibAfter_append_self xs ys mk hmkxs
    have hstep : (patchM ⟨mk, [], []⟩ (xs ++ mk :: ys) [it]).2.1
        = insertBeforeNext (removeNodes (xs ++ mk :: ys) it.newNodes)
            (sibAfter (xs ++ mk :: ys) mk) it.newNodes := by
      simp [patchM, runItems, stepMFull, resolveContent, assocLookup, stepDecision,
        enumContents, enumContentsFrom, removeIdx, cleanupDom]
    rw [hstep, removeNodes_eq_self hdisj, hnext]
    cases ys with
    | nil => simp [insertBeforeNext]
    | cons y ys2 =>
      have hymem : y ∈ mk :: y :: ys2 := List.mem_cons_of_mem mk (List.mem_cons_self y ys2)
      have hyxs : y ∉ xs := fun hy => (List.nodup_append.mp hnd).2.2 hy hymem
      have hmky : mk ≠ y := by
        have h2 := (List.nodup_append.mp hnd).2.1
        rw [List.nodup_cons] at h2
        intro he
        exact h2.1 (he ▸ List.mem_cons_self y ys2)
      have hall : ∀ a ∈ xs ++ [mk], (fun x => decide (x ≠ y)) a = true := by
        intro a ha
        rcases List.mem_append.mp ha with h1 | h2
        · simp only [decide_eq_true_eq]
          exact fun he => hyxs (he ▸ h1)
        · simp only [List.mem_singleton] at h2
          subst h2
          simp [hmky]
      show insertBeforeNext (xs ++ mk :: y :: ys2) (some y) it.newNodes = _
      have hsplit : xs ++ mk :: y :: ys2 = (xs ++ [mk]) ++ (y :: ys2) := by simp
      rw [hsplit]
      simp only [insertBeforeNext]
      rw [takeWhile_append_of_all _ _ hall, dropWhile_append_of_all _ _ hall]
      simp [List.takeWhile_cons, List.dropWhile_cons]

/-- Witness for C9: a concrete pass over a keyed singleton keeps the marker
in the tree, and a concrete empty-to-one pass inserts the fresh node right
after the marker. -/
theorem C9_marker_preserved_witness :
    (0 : Nat) ∈ (patchM ⟨0, [⟨1, 0, [10]⟩], [("key-a", ⟨1, 0, [10]⟩)]⟩ [0, 10]
        [⟨some "a", 0, 5, [30]⟩]).2.1
    ∧ (patchM ⟨0, [], []⟩ ([] ++ 0 :: [10]) [⟨none, 0, 5, [30]⟩]).2.1
        = [] ++ 0 :: ([30] ++ [10]) := by
  constructor
  · exact C9_marker_preserved.1 _ _ _ (by decide) (by decide) (by decide) (by decide)
  · exact C9_marker_preserved.2.2 0 [] [10] ⟨none, 0, 5, [30]⟩ (by decide) (by decide)

end Dope
